import Mathlib

/-!
Verification of the wavelet-structure python binding layer
(`src/pysdsl/types/wavelet.hpp`).

The file embeds, over a sequence modelled as `List ℕ`:
  * the underlying wavelet query semantics (rank = prefix count,
    select = position of the k-th occurrence, lexicographic counts,
    quantile, 2d range search, interval symbols) — these live in the
    sdsl library, so they are modelled from the spec's description;
  * the binding-layer guard logic, translated line by line from the
    lambdas in `wavelet.hpp` (`rank`, `select`, `lex_count`,
    `lex_smaller_count`, `quantile_freq`, `range_search_2d`,
    `interval_symbols`), with C++ `std::out_of_range` rendered as
    `QueryError.IndexOutOfRange` and `std::invalid_argument` as
    `QueryError.InvalidQuery`.
-/

/-- Error kinds surfaced by the binding layer: `IndexOutOfRange` stands for
C++ `std::out_of_range`, `InvalidQuery` for `std::invalid_argument`. -/
inductive QueryError where
  | IndexOutOfRange
  | InvalidQuery
  deriving DecidableEq, Repr

deriving instance DecidableEq for Except

/-- Modelled from the spec: the underlying wavelet `rank(i, c)` — the
count of occurrences of symbol `c` in the prefix `S[0..i)` (glossary:
"Rank: count of occurrences of a symbol up to (exclusive) a position").
The sdsl tree-descent implementation is not under `src/`. -/
def wtRank (S : List ℕ) (i c : ℕ) : ℕ :=
  (S.take i).count c

/-- Total number of occurrences of `c` in the sequence. -/
def wtCount (S : List ℕ) (c : ℕ) : ℕ :=
  S.count c

/-- Modelled from the spec: the underlying wavelet `select(k, c)` — the
0-indexed position of the `k`-th (1-indexed) occurrence of `c`
(glossary: "Select: position of the k-th occurrence of a symbol").
The sdsl tree-ascent implementation is not under `src/`. -/
def wtSelect : List ℕ → ℕ → ℕ → Option ℕ
  | [], _, _ => none
  | x :: xs, k, c =>
    if x = c then
      if k = 1 then some 0
      else (wtSelect xs (k - 1) c).map (· + 1)
    else (wtSelect xs k c).map (· + 1)

/-- The `rank` lambda of `add_wavelet_class` (`wavelet.hpp:320-333`):
`if (i >= self.size()) throw std::out_of_range; return self.rank(i, c);`. -/
def rank_py (S : List ℕ) (i c : ℕ) : Except QueryError ℕ :=
  if i ≥ S.length then .error .IndexOutOfRange
  else .ok (wtRank S i c)

/-- The `select` lambda of `add_wavelet_class` (`wavelet.hpp:345-360`):
`if (i < 1 || i >= self.size()) throw std::out_of_range;`
`if (i > self.rank(self.size(), c)) throw std::invalid_argument;`
`return self.select(i, c);`. -/
def select_py (S : List ℕ) (k c : ℕ) : Except QueryError ℕ :=
  if k < 1 ∨ k ≥ S.length then .error .IndexOutOfRange
  else if k > wtRank S S.length c then .error .InvalidQuery
  else .ok ((wtSelect S k c).getD 0)

/-- The subsequence `S[i..j)` (positions `i` inclusive to `j` exclusive). -/
def rangeList (S : List ℕ) (i j : ℕ) : List ℕ :=
  (S.take j).drop i

/-- Modelled from the spec: count of values lexicographically smaller
than `c` in `S[i..j)` (spec §4.4, `lex_count`). -/
def lexSmallerIn (S : List ℕ) (i j c : ℕ) : ℕ :=
  (rangeList S i j).countP (fun x => x < c)

/-- Modelled from the spec: count of values lexicographically greater
than `c` in `S[i..j)` (spec §4.4, `lex_count`). -/
def lexGreaterIn (S : List ℕ) (i j c : ℕ) : ℕ :=
  (rangeList S i j).countP (fun x => c < x)

/-- The `lex_count` lambda of `add_lex_functor` (`wavelet.hpp:59-74`):
`if (j >= self.size()) throw std::invalid_argument;`
`if (i >= j) throw std::invalid_argument;`
`return self.lex_count(i, j, c);`, the underlying `lex_count` returning
the triple (rank(i,c), #smaller in [i..j), #greater in [i..j)). -/
def lex_count_py (S : List ℕ) (i j c : ℕ) :
    Except QueryError (ℕ × ℕ × ℕ) :=
  if j ≥ S.length then .error .InvalidQuery
  else if i ≥ j then .error .InvalidQuery
  else .ok (wtRank S i c, lexSmallerIn S i j c, lexGreaterIn S i j c)

/-- The `lex_smaller_count` lambda of `add_lex_functor`
(`wavelet.hpp:75-86`):
`if (i >= self.size()) throw std::invalid_argument;`
`return self.lex_smaller_count(i, c);`, the underlying function
returning (rank(i,c), #smaller in [0..i)). -/
def lex_smaller_count_py (S : List ℕ) (i c : ℕ) :
    Except QueryError (ℕ × ℕ) :=
  if i ≥ S.length then .error .InvalidQuery
  else .ok (wtRank S i c, lexSmallerIn S 0 i c)

/-- Insertion into a sorted list, for the quantile model. -/
def insertSorted (x : ℕ) : List ℕ → List ℕ
  | [] => [x]
  | y :: ys => if x ≤ y then x :: y :: ys else y :: insertSorted x ys

/-- Insertion sort, for the quantile model. -/
def sortList : List ℕ → List ℕ
  | [] => []
  | x :: xs => insertSorted x (sortList xs)

/-- Modelled from the spec: `sdsl::quantile_freq(wt, lb, rb, q)` — the
q-th smallest (0-indexed) symbol among `S[lb..rb]` (both bounds
inclusive) together with its frequency in that range (spec §4.4). The
mathematical value is total; the C++ descent is unchecked. -/
def quantileFreq (S : List ℕ) (lb rb q : ℕ) : ℕ × ℕ :=
  let range := rangeList S lb (rb + 1)
  let v := (sortList range).getD q 0
  (v, range.count v)

/-- The `quantile_freq` lambda of `add_lex_functor` (`wavelet.hpp:48-58`):
it performs no validation at all and directly returns
`sdsl::quantile_freq(self, lb, rb, q)`. -/
def quantile_freq_py (S : List ℕ) (lb rb q : ℕ) :
    Except QueryError (ℕ × ℕ) :=
  .ok (quantileFreq S lb rb q)

/-- Modelled from the spec: `range_search_2d` over the flat matrix
layout — all (position, value) pairs with position in `[lb..rb]` and
value in `[vlb..vrb]`, returned as (count, list of pairs), the list
empty when `report = false` (spec §4.6). -/
def rangeSearch2d (S : List ℕ) (lb rb vlb vrb : ℕ) (report : Bool) :
    ℕ × List (ℕ × ℕ) :=
  let pts := ((List.range S.length).filter
    (fun p => decide (lb ≤ p) && decide (p ≤ rb) &&
      decide (vlb ≤ S.getD p 0) && decide (S.getD p 0 ≤ vrb))).map
    (fun p => (p, S.getD p 0))
  (pts.length, if report then pts else [])

/-- The `range_search_2d` lambda of `add_wavelet_specific`
(`wavelet.hpp:253-271`): it performs no validation and directly returns
`self.range_search_2d(lb, rb, vlb, vrb, report)`. -/
def range_search_2d_py (S : List ℕ) (lb rb vlb vrb : ℕ) (report : Bool) :
    Except QueryError (ℕ × List (ℕ × ℕ)) :=
  .ok (rangeSearch2d S lb rb vlb vrb report)

/-- Modelled from the spec: the distinct symbols occurring in `S[i..j)`
(spec §4.8, the `k` filled entries of `interval_symbols`). -/
def intervalSyms (S : List ℕ) (i j : ℕ) : List ℕ :=
  (rangeList S i j).dedup

/-- Modelled from the spec: the effective alphabet size σ — the number
of distinct symbols realized in the sequence (spec §3, `self.sigma`). -/
def sigmaOf (S : List ℕ) : ℕ :=
  S.dedup.length

/-- The `interval_symbols` lambda of `add_traversable_functor`
(`wavelet.hpp:202-220`):
`if (j > self.size()) throw std::invalid_argument;`
`if (i > j) throw std::invalid_argument;`
then allocates three vectors of length `self.sigma` (value-initialized,
so filled with 0), lets `sdsl::interval_symbols` fill their first `k`
entries, and returns the tuple `(k, cs, rank_c_i, rank_c_j)`. -/
def interval_symbols_py (S : List ℕ) (i j : ℕ) :
    Except QueryError (ℕ × List ℕ × List ℕ × List ℕ) :=
  if j > S.length then .error .InvalidQuery
  else if i > j then .error .InvalidQuery
  else
    let cs := intervalSyms S i j
    let k := cs.length
    let pad := sigmaOf S - k
    .ok (k,
      cs ++ List.replicate pad 0,
      cs.map (fun c => wtRank S i c) ++ List.replicate pad 0,
      cs.map (fun c => wtRank S j c) ++ List.replicate pad 0)

/-- `true` iff an `Except` result is a success. -/
def isOkE {α : Type} : Except QueryError α → Bool
  | .ok _ => true
  | .error _ => false

/-! ### Helper lemmas about the underlying query model -/

theorem wtRank_length (S : List ℕ) (c : ℕ) : wtRank S S.length c = wtCount S c := by
  simp [wtRank, wtCount, List.take_length]

theorem wtSelect_zero (S : List ℕ) (c : ℕ) : wtSelect S 0 c = none := by
  induction S with
  | nil => rfl
  | cons x xs ih => simp [wtSelect, ih]

theorem wtSelect_pos {S : List ℕ} {k c p : ℕ} (h : wtSelect S k c = some p) :
    1 ≤ k := by
  rcases Nat.eq_zero_or_pos k with rfl | hk
  · rw [wtSelect_zero] at h; cases h
  · exact hk

theorem wtSelect_lt_length {S : List ℕ} {k c p : ℕ}
    (h : wtSelect S k c = some p) : p < S.length := by
  induction S generalizing k p with
  | nil => simp [wtSelect] at h
  | cons x xs ih =>
    simp only [wtSelect] at h
    split at h
    · split at h
      · cases h; simp
      · obtain ⟨q, hq, rfl⟩ := Option.map_eq_some'.mp h
        simpa using ih hq
    · obtain ⟨q, hq, rfl⟩ := Option.map_eq_some'.mp h
      simpa using ih hq

theorem wtSelect_get {S : List ℕ} {k c p : ℕ}
    (h : wtSelect S k c = some p) : S.getD p 0 = c := by
  induction S generalizing k p with
  | nil => simp [wtSelect] at h
  | cons x xs ih =>
    simp only [wtSelect] at h
    split at h
    case isTrue hx =>
      split at h
      · cases h; simpa using hx
      · obtain ⟨q, hq, rfl⟩ := Option.map_eq_some'.mp h
        simpa using ih hq
    case isFalse hx =>
      obtain ⟨q, hq, rfl⟩ := Option.map_eq_some'.mp h
      simpa using ih hq

theorem wtSelect_rank {S : List ℕ} {k c p : ℕ}
    (h : wtSelect S k c = some p) : wtRank S p c = k - 1 := by
  induction S generalizing k p with
  | nil => simp [wtSelect] at h
  | cons x xs ih =>
    simp only [wtSelect] at h
    split at h
    case isTrue hx =>
      split at h
      case isTrue hk =>
        cases h; subst hk; simp [wtRank]
      case isFalse hk =>
        obtain ⟨q, hq, rfl⟩ := Option.map_eq_some'.mp h
        have hk1 : 1 ≤ k - 1 := wtSelect_pos hq
        have hr := ih hq
        have hstep : wtRank (x :: xs) (q + 1) c = wtRank xs q c + 1 := by
          simp [wtRank, List.take_succ_cons, List.count_cons, hx]
        rw [hstep, hr]
        omega
    case isFalse hx =>
      obtain ⟨q, hq, rfl⟩ := Option.map_eq_some'.mp h
      have hr := ih hq
      have hstep : wtRank (x :: xs) (q + 1) c = wtRank xs q c := by
        simp [wtRank, List.take_succ_cons, List.count_cons, hx, Ne.symm hx]
      rw [hstep, hr]

theorem wtSelect_isSome {S : List ℕ} {k c : ℕ} (h1 : 1 ≤ k)
    (h2 : k ≤ S.count c) : (wtSelect S k c).isSome := by
  induction S generalizing k with
  | nil => simp at h2; omega
  | cons x xs ih =>
    simp only [wtSelect]
    by_cases hx : x = c
    · rw [if_pos hx]
      by_cases hk : k = 1
      · rw [if_pos hk]; rfl
      · rw [if_neg hk]
        have hcount : (x :: xs).count c = xs.count c + 1 := by
          simp [List.count_cons, hx]
        have h2' : k - 1 ≤ xs.count c := by omega
        have h1' : 1 ≤ k - 1 := by omega
        rw [Option.isSome_map']
        exact ih h1' h2'
    · rw [if_neg hx]
      have hcount : (x :: xs).count c = xs.count c := by
        simp [List.count_cons, hx, Ne.symm hx]
      rw [Option.isSome_map']
      exact ih h1 (by omega)

theorem wtRank_add_range (S : List ℕ) {i j : ℕ} (hij : i ≤ j) (c : ℕ) :
    wtRank S j c = wtRank S i c + (rangeList S i j).count c := by
  have h1 : (S.take j).take i = S.take i := by
    rw [List.take_take, Nat.min_eq_left hij]
  have h2 : S.take j = S.take i ++ rangeList S i j := by
    rw [rangeList, ← h1]
    exact (List.take_append_drop i (S.take j)).symm
  rw [wtRank, wtRank, h2, List.count_append]

theorem rangeList_length (S : List ℕ) {i j : ℕ} (hij : i ≤ j)
    (hj : j ≤ S.length) : (rangeList S i j).length = j - i := by
  simp only [rangeList, List.length_drop, List.length_take]
  omega

theorem intervalSyms_length_le (S : List ℕ) (i j : ℕ) :
    (intervalSyms S i j).length ≤ sigmaOf S := by
  have hsub : (rangeList S i j).toFinset ⊆ S.toFinset := by
    intro x hx
    simp only [List.mem_toFinset] at hx ⊢
    exact List.mem_of_mem_take (List.mem_of_mem_drop hx)
  have := Finset.card_le_card hsub
  rwa [List.card_toFinset, List.card_toFinset] at this

/-! ### Claim theorems -/

/-- C1: the claim says rank(0,c) = 0 and rank(n,c) = total occurrences of
c; the binding guard `i >= self.size()` rejects i = n, so the public
rank can never report the total count: on S = [5], rank(1,5) throws
although the underlying count is 1 (rank(0,5) = 0 still holds). -/
theorem claim_C1_rank_at_n_fails :
    rank_py [5] 1 5 = .error .IndexOutOfRange ∧
    wtRank [5] 1 5 = 1 ∧
    rank_py [5] 0 5 = .ok 0 := by
  decide

/-- C2: the claim (and the binding's own docstring "i in [0..size]") says
rank(i,c) is defined for all i ≤ n and fails exactly when i > n; the
guard `i >= self.size()` also rejects i = n: on S = [3,1,2,3,1,3],
rank(6,3) throws although the prefix count is 3, while rank(5,3) = 2
works. -/
theorem claim_C2_rank_boundary_fails :
    rank_py [3, 1, 2, 3, 1, 3] 6 3 = .error .IndexOutOfRange ∧
    wtRank [3, 1, 2, 3, 1, 3] 6 3 = 3 ∧
    rank_py [3, 1, 2, 3, 1, 3] 5 3 = .ok 2 := by
  decide

/-- C3 counterexample: the claim says select(k,c) succeeds for every
1 ≤ k ≤ rank(n,c); on S = [5] with c = 5, k = 1 we have
1 ≤ 1 ≤ rank(n,c) = 1, yet the guard `i >= self.size()` makes the call
fail with IndexOutOfRange. -/
theorem claim_C3_counterexample :
    1 ≤ wtCount [5] 5 ∧
    select_py [5] 1 5 = .error .IndexOutOfRange := by
  decide

/-- C3 (amended): select(k,c) succeeds exactly when 1 ≤ k ≤ rank(n,c)
and additionally k < n; it fails with IndexOutOfRange exactly when k = 0
or k ≥ n, and with InvalidQuery exactly when 1 ≤ k < n but
k > rank(n,c). -/
theorem claim_C3_select_domain (S : List ℕ) (k c : ℕ) :
    (select_py S k c = .ok ((wtSelect S k c).getD 0) ↔
      1 ≤ k ∧ k < S.length ∧ k ≤ wtCount S c) ∧
    (select_py S k c = .error .IndexOutOfRange ↔ k = 0 ∨ S.length ≤ k) ∧
    (select_py S k c = .error .InvalidQuery ↔
      1 ≤ k ∧ k < S.length ∧ wtCount S c < k) := by
  unfold select_py
  rw [wtRank_length]
  refine ⟨?_, ?_, ?_⟩ <;> split_ifs <;>
    simp_all <;> omega

/-- C4 counterexample: the claim says for every 1 ≤ k ≤ rank(n,c) the
select/rank inverse law holds, in particular select(k,c) is defined; on
S = [7,7], c = 7, k = 2 we have 2 ≤ rank(n,c) = 2 yet select(2,7) fails
with IndexOutOfRange (guard `i >= self.size()`). -/
theorem claim_C4_counterexample :
    1 ≤ 2 ∧ 2 ≤ wtCount [7, 7] 7 ∧
    select_py [7, 7] 2 7 = .error .IndexOutOfRange := by
  decide

/-- C4 (amended): for every symbol c and every k with 1 ≤ k ≤ rank(n,c)
and k < n, select(k,c) succeeds returning the position p of the k-th
occurrence, rank(p,c) succeeds and equals k − 1, and S[p] = c. -/
theorem claim_C4_select_rank_inverse (S : List ℕ) (k c : ℕ)
    (h1 : 1 ≤ k) (h2 : k ≤ wtCount S c) (h3 : k < S.length) :
    select_py S k c = .ok ((wtSelect S k c).getD 0) ∧
    rank_py S ((wtSelect S k c).getD 0) c = .ok (k - 1) ∧
    S.getD ((wtSelect S k c).getD 0) 0 = c := by
  obtain ⟨p, hp⟩ := Option.isSome_iff_exists.mp (wtSelect_isSome h1 h2)
  have hplt : p < S.length := wtSelect_lt_length hp
  have hsel : select_py S k c = .ok ((wtSelect S k c).getD 0) := by
    unfold select_py
    rw [wtRank_length]
    rw [if_neg (by omega), if_neg (by omega)]
  refine ⟨hsel, ?_, ?_⟩
  · rw [hp]
    simp only [Option.getD_some]
    unfold rank_py
    rw [if_neg (by omega)]
    rw [wtSelect_rank hp]
  · rw [hp]
    simp only [Option.getD_some]
    exact wtSelect_get hp

/-- C4 witness: the amended law at S = [3,1,2,3,1,3], k = 2, c = 3 —
select(2,3) = 3, rank(3,3) = 1 = k − 1, S[3] = 3. -/
theorem claim_C4_witness :
    select_py [3, 1, 2, 3, 1, 3] 2 3 =
      .ok ((wtSelect [3, 1, 2, 3, 1, 3] 2 3).getD 0) ∧
    rank_py [3, 1, 2, 3, 1, 3] ((wtSelect [3, 1, 2, 3, 1, 3] 2 3).getD 0) 3 =
      .ok (2 - 1) ∧
    [3, 1, 2, 3, 1, 3].getD ((wtSelect [3, 1, 2, 3, 1, 3] 2 3).getD 0) 0 = 3 :=
  claim_C4_select_rank_inverse [3, 1, 2, 3, 1, 3] 2 3
    (by decide) (by decide) (by decide)

/-- C6 counterexample: the claim says lex_count(i,j,c) is defined for all
0 ≤ i < j ≤ n; on S = [0] the query lex_count(0,1,0) has i = 0 < j = 1 =
n, yet the guard `j >= self.size()` makes it fail with InvalidQuery. -/
theorem claim_C6_counterexample :
    (0 : ℕ) < 1 ∧ 1 ≤ ([0] : List ℕ).length ∧
    lex_count_py [0] 0 1 0 = .error .InvalidQuery := by
  decide

/-- C6 (amended): lex_count(i,j,c) returns the triple
(rank(i,c), #smaller in [i,j), #greater in [i,j)) exactly when
i < j and j < n (not j ≤ n), and fails with InvalidQuery exactly when
i ≥ j or j ≥ n. -/
theorem claim_C6_lex_count_domain (S : List ℕ) (i j c : ℕ) :
    (lex_count_py S i j c =
        .ok (wtRank S i c, lexSmallerIn S i j c, lexGreaterIn S i j c) ↔
      i < j ∧ j < S.length) ∧
    (lex_count_py S i j c = .error .InvalidQuery ↔
      j ≤ i ∨ S.length ≤ j) := by
  unfold lex_count_py
  constructor <;> split_ifs <;> simp_all

/-- C7 counterexample: the claim says lex_smaller_count(i,c) is defined
for all 0 ≤ i ≤ n and fails with IndexOutOfRange exactly when i > n; on
S = [5] the query lex_smaller_count(1,5) has i = 1 = n, yet the guard
`i >= self.size()` makes it fail — and with std::invalid_argument
(InvalidQuery), not std::out_of_range (IndexOutOfRange). -/
theorem claim_C7_counterexample :
    1 ≤ ([5] : List ℕ).length ∧
    lex_smaller_count_py [5] 1 5 = .error .InvalidQuery ∧
    lex_smaller_count_py [5] 1 5 ≠ .error .IndexOutOfRange := by
  decide

/-- C7 (amended): lex_smaller_count(i,c) returns
(rank(i,c), #smaller in [0,i)) exactly when i < n (not i ≤ n), and fails
with InvalidQuery (std::invalid_argument, not IndexOutOfRange) exactly
when i ≥ n. -/
theorem claim_C7_lex_smaller_count_domain (S : List ℕ) (i c : ℕ) :
    (lex_smaller_count_py S i c = .ok (wtRank S i c, lexSmallerIn S 0 i c) ↔
      i < S.length) ∧
    (lex_smaller_count_py S i c = .error .InvalidQuery ↔ S.length ≤ i) := by
  unfold lex_smaller_count_py
  constructor <;> split_ifs <;> simp_all

/-- C8: the claim says quantile_freq fails with InvalidQuery when
rb < lb, rb ≥ n or q ≥ rb − lb + 1, with bounds validated before the
descent; the binding lambda performs no validation at all and forwards
straight to sdsl::quantile_freq, so no error is ever raised: on
S = [5] both quantile_freq(0, 5, 0) (rb = 5 ≥ n = 1) and
quantile_freq(1, 0, 0) (rb < lb) return successfully. -/
theorem claim_C8_no_validation :
    quantile_freq_py [5] 0 5 0 = .ok (5, 1) ∧
    quantile_freq_py [5] 1 0 0 = .ok (0, 0) := by
  decide

/-- C9: the claim says range_search_2d fails with InvalidQuery on
malformed bounds (lb > rb, vlb > vrb, rb ≥ n); the binding lambda
performs no validation and forwards straight to the underlying search,
so no error is ever raised: on S = [5] both the lb > rb query and the
rb ≥ n query return successfully (the report = false empty-list
behaviour itself does hold). -/
theorem claim_C9_no_validation :
    range_search_2d_py [5] 1 0 0 9 true = .ok (0, []) ∧
    range_search_2d_py [5] 0 5 0 9 true = .ok (1, [(0, 5)]) ∧
    range_search_2d_py [5] 0 5 0 9 false = .ok (1, []) := by
  decide

/-- Shape of a successful `interval_symbols` result. -/
theorem interval_symbols_py_ok {S : List ℕ} {i j k : ℕ}
    {cs ri rj : List ℕ}
    (h : interval_symbols_py S i j = .ok (k, cs, ri, rj)) :
    k = (intervalSyms S i j).length ∧
    cs = intervalSyms S i j ++ List.replicate (sigmaOf S - k) 0 ∧
    ri = (intervalSyms S i j).map (fun c => wtRank S i c) ++
      List.replicate (sigmaOf S - k) 0 ∧
    rj = (intervalSyms S i j).map (fun c => wtRank S j c) ++
      List.replicate (sigmaOf S - k) 0 := by
  unfold interval_symbols_py at h
  split_ifs at h
  simp only [Except.ok.injEq, Prod.mk.injEq] at h
  obtain ⟨hk, hcs, hri, hrj⟩ := h
  subst hk; subst hcs; subst hri; subst hrj
  exact ⟨rfl, rfl, rfl, rfl⟩

/-- C5: for every valid interval i ≤ j ≤ n, interval_symbols(i,j)
succeeds and the sum, over the k returned symbols, of
(rank_at_j − rank_at_i) equals j − i. (spec-modelled underlying
`sdsl::interval_symbols`.) -/
theorem claim_C5_interval_symbols_sum (S : List ℕ) (i j : ℕ)
    (hij : i ≤ j) (hj : j ≤ S.length) :
    isOkE (interval_symbols_py S i j) = true ∧
    ∀ k cs ri rj, interval_symbols_py S i j = .ok (k, cs, ri, rj) →
      (List.zipWith (fun a b => a - b) (rj.take k) (ri.take k)).sum =
        j - i := by
  constructor
  · simp only [interval_symbols_py, if_neg (Nat.not_lt.mpr hj),
      if_neg (Nat.not_lt.mpr hij)]
    rfl
  · intro k cs ri rj h
    obtain ⟨hk, hcs, hri, hrj⟩ := interval_symbols_py_ok h
    subst hk; subst hcs; subst hri; subst hrj
    rw [List.take_left' (List.length_map _ _),
      List.take_left' (List.length_map _ _)]
    rw [List.zipWith_map, List.zipWith_same]
    have hcongr : ∀ c ∈ intervalSyms S i j,
        wtRank S j c - wtRank S i c = (rangeList S i j).count c := by
      intro c _
      rw [wtRank_add_range S hij c]
      omega
    rw [List.map_congr_left hcongr]
    rw [intervalSyms, List.sum_map_count_dedup_eq_length]
    exact rangeList_length S hij hj

/-- C5 witness: on S = [3,1,2,3,1,3] with (i,j) = (1,4), the call
succeeds returning k = 3, symbols [1,2,3], ranks [0,0,1] and [1,1,2],
and (1−0) + (1−0) + (2−1) = 3 = j − i. -/
theorem claim_C5_witness :
    isOkE (interval_symbols_py [3, 1, 2, 3, 1, 3] 1 4) = true ∧
    (List.zipWith (fun a b => a - b) (([1, 1, 2] : List ℕ).take 3)
      (([0, 0, 1] : List ℕ).take 3)).sum = 4 - 1 :=
  ⟨(claim_C5_interval_symbols_sum [3, 1, 2, 3, 1, 3] 1 4
      (by decide) (by decide)).1,
   (claim_C5_interval_symbols_sum [3, 1, 2, 3, 1, 3] 1 4
      (by decide) (by decide)).2 3 [1, 2, 3] [0, 0, 1] [1, 1, 2]
      (by decide)⟩

/-- C10: whenever interval_symbols succeeds, the three returned vectors
all have length sigma (the effective alphabet size), independent of the
number k of symbols found, and every entry past the first k is the
default value 0. -/
theorem claim_C10_interval_symbols_vectors (S : List ℕ) (i j k : ℕ)
    (cs ri rj : List ℕ)
    (h : interval_symbols_py S i j = .ok (k, cs, ri, rj)) :
    k ≤ sigmaOf S ∧
    cs.length = sigmaOf S ∧ ri.length = sigmaOf S ∧
    rj.length = sigmaOf S ∧
    cs.drop k = List.replicate (sigmaOf S - k) 0 ∧
    ri.drop k = List.replicate (sigmaOf S - k) 0 ∧
    rj.drop k = List.replicate (sigmaOf S - k) 0 := by
  obtain ⟨hk, hcs, hri, hrj⟩ := interval_symbols_py_ok h
  subst hk; subst hcs; subst hri; subst hrj
  have hle := intervalSyms_length_le S i j
  refine ⟨hle, ?_, ?_, ?_, ?_, ?_, ?_⟩
  · simp only [List.length_append, List.length_replicate]
    omega
  · simp only [List.length_append, List.length_map, List.length_replicate]
    omega
  · simp only [List.length_append, List.length_map, List.length_replicate]
    omega
  · exact List.drop_left _ _
  · exact List.drop_left' (List.length_map _ _)
  · exact List.drop_left' (List.length_map _ _)

/-- C10 witness: on S = [3,1,2,3,1,3] (sigma = 3) with (i,j) = (1,4),
k = 3 and all three vectors have length 3 with no trailing entries. -/
theorem claim_C10_witness :
    3 ≤ sigmaOf [3, 1, 2, 3, 1, 3] ∧
    ([1, 2, 3] : List ℕ).length = sigmaOf [3, 1, 2, 3, 1, 3] ∧
    ([0, 0, 1] : List ℕ).length = sigmaOf [3, 1, 2, 3, 1, 3] ∧
    ([1, 1, 2] : List ℕ).length = sigmaOf [3, 1, 2, 3, 1, 3] ∧
    ([1, 2, 3] : List ℕ).drop 3 =
      List.replicate (sigmaOf [3, 1, 2, 3, 1, 3] - 3) 0 ∧
    ([0, 0, 1] : List ℕ).drop 3 =
      List.replicate (sigmaOf [3, 1, 2, 3, 1, 3] - 3) 0 ∧
    ([1, 1, 2] : List ℕ).drop 3 =
      List.replicate (sigmaOf [3, 1, 2, 3, 1, 3] - 3) 0 :=
  claim_C10_interval_symbols_vectors [3, 1, 2, 3, 1, 3] 1 4 3
    [1, 2, 3] [0, 0, 1] [1, 1, 2] (by decide)
